import Mathlib

/-!
Verification development for the jukebox server core
(src/server/ChunkedDataSender.cpp and src/server/jukebox-server.cpp).

The C++ code is shallowly embedded: byte buffers become lists of naturals,
the POSIX send(2) call becomes a function from the offered chunk to an
abstract outcome supplied by the transport, and the connection table of the
event loop becomes an association list mirroring std::map semantics.
-/

/-- Outcome of one POSIX send(2) call on the socket, as observed by
ArraySender::send_next_chunk: either send returned a count n ≥ 0, or it
returned -1 with errno equal to EAGAIN (again = true) or some other errno
(again = false). -/
inductive SendOutcome where
  | ret (n : Nat)
  | err (again : Bool)
deriving DecidableEq, Repr

/-- Result of ArraySender::send_next_chunk as seen by its caller.
sent n models a return value of n ≥ 0 (n > 0 after a successful send,
n = 0 when nothing remains); wouldBlock models the return value -1 on
EAGAIN; procExit models the exit(EXIT_FAILURE) call on an unexpected send
error, after which control never returns to the caller. -/
inductive ChunkResult where
  | sent (n : Nat)
  | wouldBlock
  | procExit
deriving DecidableEq, Repr

/-- ArraySender from ChunkedDataSender.cpp: an owned copy of the byte
array together with the current location curr_loc.  array_length of the
C++ object is array.length here. -/
structure ArraySender where
  array : List Nat
  curr_loc : Nat
deriving DecidableEq, Repr

/-- The constructor ArraySender::ArraySender(array_to_send, length):
copies the first length bytes of the source buffer into a fresh owned
array and sets curr_loc to 0 (ChunkedDataSender.cpp lines 12-17). -/
def ArraySender.make (array_to_send : List Nat) (length : Nat) : ArraySender :=
  { array := array_to_send.take length, curr_loc := 0 }

/-- Number of bytes left to send: array_length - curr_loc
(ChunkedDataSender.cpp line 23, size_t subtraction; under the invariant
curr_loc ≤ array_length it agrees with Nat truncated subtraction). -/
def ArraySender.num_bytes_remaining (s : ArraySender) : Nat :=
  s.array.length - s.curr_loc

/-- The chunk that send_next_chunk copies into its local buffer and
offers to send: bytes_in_chunk = min(num_bytes_remaining, chunk_limit)
bytes starting at array + curr_loc (ChunkedDataSender.cpp lines 24-30,
the memcpy into the local chunk buffer).  The chunk limit is the
CHUNK_SIZE constant declared in ChunkedDataSender.h, which is kept as the
parameter C here. -/
def ArraySender.mkChunk (C : Nat) (s : ArraySender) : List Nat :=
  (s.array.drop s.curr_loc).take (min s.num_bytes_remaining C)

/-- ArraySender::send_next_chunk (ChunkedDataSender.cpp lines 19-54).
The transport is the function send from the offered chunk to the outcome
of the send(2) call; C is the CHUNK_SIZE constant from the missing
header.  Returns the result handed to the caller together with the
updated sender state:
if bytes_in_chunk > 0 it offers the chunk; on a positive count it
advances curr_loc by exactly that count and returns it; on -1/EAGAIN it
returns would-block leaving the state alone; on any other failure (or a
zero count) it calls exit(EXIT_FAILURE), modelled by procExit; with
nothing remaining it returns 0 without touching the transport. -/
def ArraySender.send_next_chunk (C : Nat) (send : List Nat → SendOutcome)
    (s : ArraySender) : ChunkResult × ArraySender :=
  let bytes_in_chunk := min s.num_bytes_remaining C
  if 0 < bytes_in_chunk then
    match send (s.mkChunk C) with
    | SendOutcome.ret n =>
        if 0 < n then
          (ChunkResult.sent n, { s with curr_loc := s.curr_loc + n })
        else
          (ChunkResult.procExit, s)
    | SendOutcome.err again =>
        if again then (ChunkResult.wouldBlock, s)
        else (ChunkResult.procExit, s)
  else
    (ChunkResult.sent 0, s)

/-- Exhaustion as the code tests it: no bytes remaining
(ChunkedDataSender.cpp lines 23-26 take the else branch exactly when
num_bytes_remaining is 0). -/
def ArraySender.exhausted (s : ArraySender) : Prop :=
  s.num_bytes_remaining = 0

instance (s : ArraySender) : Decidable s.exhausted := by
  unfold ArraySender.exhausted; infer_instance

/-- Driver that repeatedly calls send_next_chunk against a transport that
accepts every offered byte (send returns the full length of the chunk it
was offered), collecting the accepted-byte counts of the calls until a
call reports 0 bytes; fuel bounds the number of calls. -/
def runFullAccept (C : Nat) : Nat → ArraySender → List Nat
  | 0, _ => []
  | fuel + 1, s =>
    match ArraySender.send_next_chunk C (fun chunk => SendOutcome.ret chunk.length) s with
    | (ChunkResult.sent n, s') =>
        if 0 < n then n :: runFullAccept C fuel s' else []
    | (ChunkResult.wouldBlock, _) => []
    | (ChunkResult.procExit, _) => []

/-- Connection mode of a client, from the spec's ConnectionState
(ConnectedClient.h is not under src/; jukebox-server.cpp constructs
ConnectedClient(client_fd, RECEIVING)).  Modes: RECEIVING, SENDING,
CLOSING. -/
inductive Mode where
  | RECEIVING
  | SENDING
  | CLOSING
deriving DecidableEq, Repr

/-- Modelled from the spec: ConnectedClient (declared in the missing
ConnectedClient.h) carries the connection handle, the mode, and the
optional active ChunkTransmitter (spec section 3: ConnectionState =
handle, mode, optional active ChunkTransmitter). -/
structure ConnectedClient where
  fd : Nat
  mode : Mode
  sender : Option ArraySender
deriving DecidableEq, Repr

/-- Modelled from the spec: the value std::map operator[] default-inserts
when the key is absent (ConnectedClient's default constructor lives in
the missing ConnectedClient.h; its field values never matter to the
theorems below because the entry is erased immediately after). -/
def ConnectedClient.defaultClient : ConnectedClient :=
  { fd := 0, mode := Mode.RECEIVING, sender := none }

/-- The connection table map<int, ConnectedClient> of event_loop
(jukebox-server.cpp line 290), as an association list from file
descriptor to client. -/
abbrev Table : Type := List (Nat × ConnectedClient)

/-- Lookup of a file descriptor in the connection table (std::map::find). -/
def Table.lookupFd (t : Table) (fd : Nat) : Option ConnectedClient :=
  match t with
  | [] => none
  | (k, c) :: rest => if k = fd then some c else Table.lookupFd rest fd

/-- std::map::erase(fd): removes the entry with that key, if present
(jukebox-server.cpp line 310). -/
def Table.eraseFd (t : Table) (fd : Nat) : Table :=
  match t with
  | [] => []
  | (k, c) :: rest =>
      if k = fd then Table.eraseFd rest fd else (k, c) :: Table.eraseFd rest fd

/-- One readiness event as delivered by epoll_wait: the file descriptor
from data.fd plus the EPOLLRDHUP, EPOLLIN and EPOLLOUT bits of events. -/
structure EpollEvent where
  fd : Nat
  rdhup : Bool
  epollIn : Bool
  epollOut : Bool
deriving DecidableEq, Repr

/-- The hangup branch of the event loop (jukebox-server.cpp lines
306-311): clients[fd].handle_close(epoll_fd) followed by
clients.erase(fd).  operator[] default-inserts a ConnectedClient when fd
is absent; handle_close receives only epoll_fd, so it cannot modify the
clients table (its epoll deregistration and socket close are effects
outside the table, modelled from the spec as close(handle)); erase then
removes the entry. -/
def Table.closeBranch (t : Table) (fd : Nat) : Table :=
  let t1 := if (Table.lookupFd t fd).isSome then t
            else (fd, ConnectedClient.defaultClient) :: t
  Table.eraseFd t1 fd

/-- One iteration of the inner for loop of event_loop over a single
epoll event (jukebox-server.cpp lines 303-347).  onServerIn stands for
setup_new_client (whose accept(2) result comes from the OS) and
onClientIn for ConnectedClient::handle_input (not under src/); neither
is invoked by the branches the claims below exercise.  The source first
runs the EPOLLRDHUP branch, else the EPOLLIN branch, and then a separate
(not else) EPOLLOUT if whose body is an empty TODO stub (lines 337-347),
so the EPOLLOUT test changes nothing. -/
def processEvent (onServerIn : Table → Table) (onClientIn : Table → Nat → Table)
    (serverFd : Nat) (t : Table) (ev : EpollEvent) : Table :=
  let t1 :=
    if ev.rdhup then
      Table.closeBranch t ev.fd
    else if ev.epollIn then
      if ev.fd = serverFd then onServerIn t else onClientIn t ev.fd
    else
      t
  if ev.epollOut then t1 else t1

/-! Helper lemmas shared by the claim theorems. -/

/-- The chunk offered by send_next_chunk has exactly
min(num_bytes_remaining, C) bytes. -/
lemma ArraySender.mkChunk_length (C : Nat) (s : ArraySender) :
    (s.mkChunk C).length = min s.num_bytes_remaining C := by
  unfold ArraySender.mkChunk ArraySender.num_bytes_remaining
  rw [List.length_take, List.length_drop]
  omega

/-- With no bytes to offer, send_next_chunk takes the else branch:
result 0, state untouched, transport never consulted. -/
lemma ArraySender.send_next_chunk_done (C : Nat) (send : List Nat → SendOutcome)
    (s : ArraySender) (h : ¬ 0 < min s.num_bytes_remaining C) :
    s.send_next_chunk C send = (ChunkResult.sent 0, s) := by
  unfold ArraySender.send_next_chunk
  rw [if_neg h]

/-- Against the transport that accepts every offered byte, one call with
bytes remaining sends min(remaining, C) bytes and advances the cursor by
that amount. -/
lemma ArraySender.send_next_chunk_fullAccept (C : Nat) (s : ArraySender)
    (h : 0 < min s.num_bytes_remaining C) :
    s.send_next_chunk C (fun chunk => SendOutcome.ret chunk.length)
      = (ChunkResult.sent (min s.num_bytes_remaining C),
         { s with curr_loc := s.curr_loc + min s.num_bytes_remaining C }) := by
  unfold ArraySender.send_next_chunk
  rw [if_pos h]
  simp only [ArraySender.mkChunk_length]
  rw [if_pos h]

/-! Claim theorems. -/

/-- C1 counterexample: with 3 bytes remaining and the transport failing
with an unexpected error (send returns -1 with errno ≠ EAGAIN),
send_next_chunk does not hand any result back to its caller: it reaches
the exit(EXIT_FAILURE) call (ChunkedDataSender.cpp lines 45-49), so the
error is not contained to the connection and the process terminates. -/
theorem send_error_exits_process_cex :
    (ArraySender.send_next_chunk 4096 (fun _ => SendOutcome.err false)
        ⟨[1, 2, 3], 0⟩).1 = ChunkResult.procExit := by
  decide

/-- C1 amended: for every ArraySender with a positive chunk to offer,
when the transport write fails with an unexpected error (other than the
would-block condition) send_next_chunk prints a diagnostic and
terminates the whole process via exit(EXIT_FAILURE) instead of
returning a "fatal" result; the sender state is left as it was. -/
theorem send_error_terminates_process (C : Nat) (send : List Nat → SendOutcome)
    (s : ArraySender) (hrem : 0 < min s.num_bytes_remaining C)
    (hsend : send (s.mkChunk C) = SendOutcome.err false) :
    s.send_next_chunk C send = (ChunkResult.procExit, s) := by
  unfold ArraySender.send_next_chunk
  rw [if_pos hrem, hsend]
  rfl

/-- Witness for C1 amended at a concrete sender and transport. -/
theorem send_error_terminates_process_witness :
    0 < min (ArraySender.num_bytes_remaining ⟨[1, 2, 3], 0⟩) 4096
    ∧ ArraySender.send_next_chunk 4096 (fun _ => SendOutcome.err false) ⟨[1, 2, 3], 0⟩
        = (ChunkResult.procExit, ⟨[1, 2, 3], 0⟩) :=
  ⟨by decide,
   send_error_terminates_process 4096 (fun _ => SendOutcome.err false)
     ⟨[1, 2, 3], 0⟩ (by decide) rfl⟩

/-- C2 counterexample: a partial acceptance because the transport buffer
had room for only 2 of the 5 offered bytes makes send_next_chunk return
the count 2 and advance the cursor to 2 (ChunkedDataSender.cpp lines
34-40) — not the claimed would-block result with an unmoved cursor. -/
theorem partial_accept_not_wouldblock_cex :
    ArraySender.send_next_chunk 4096 (fun _ => SendOutcome.ret 2)
        ⟨[1, 2, 3, 4, 5], 0⟩
      = (ChunkResult.sent 2, ⟨[1, 2, 3, 4, 5], 2⟩)
    ∧ (ArraySender.send_next_chunk 4096 (fun _ => SendOutcome.ret 2)
        ⟨[1, 2, 3, 4, 5], 0⟩).1 ≠ ChunkResult.wouldBlock
    ∧ (ArraySender.send_next_chunk 4096 (fun _ => SendOutcome.ret 2)
        ⟨[1, 2, 3, 4, 5], 0⟩).2.curr_loc ≠ 0 := by
  refine ⟨rfl, ?_, ?_⟩ <;> decide

/-- C2 amended: if the transport accepts zero bytes and reports that its
outbound buffer is full (send returns -1 with errno = EAGAIN),
send_next_chunk returns the would-block result and the sender state —
in particular the cursor — is unchanged, so a subsequent successful call
offers exactly the same chunk starting from the same offset; a partial
positive acceptance instead advances the cursor by the accepted count
and returns that count. -/
theorem wouldblock_leaves_cursor (C : Nat) (send : List Nat → SendOutcome)
    (s : ArraySender) (hrem : 0 < min s.num_bytes_remaining C)
    (hsend : send (s.mkChunk C) = SendOutcome.err true) :
    s.send_next_chunk C send = (ChunkResult.wouldBlock, s)
    ∧ ((s.send_next_chunk C send).2).mkChunk C = s.mkChunk C := by
  have h : s.send_next_chunk C send = (ChunkResult.wouldBlock, s) := by
    unfold ArraySender.send_next_chunk
    rw [if_pos hrem, hsend]
    rfl
  exact ⟨h, by rw [h]⟩

/-- Witness for C2 amended at a concrete sender and transport. -/
theorem wouldblock_leaves_cursor_witness :
    ArraySender.send_next_chunk 4096 (fun _ => SendOutcome.err true)
        ⟨[1, 2, 3, 4, 5], 0⟩
      = (ChunkResult.wouldBlock, ⟨[1, 2, 3, 4, 5], 0⟩)
    ∧ ((ArraySender.send_next_chunk 4096 (fun _ => SendOutcome.err true)
        ⟨[1, 2, 3, 4, 5], 0⟩).2).mkChunk 4096
      = ArraySender.mkChunk 4096 ⟨[1, 2, 3, 4, 5], 0⟩ :=
  wouldblock_leaves_cursor 4096 (fun _ => SendOutcome.err true)
    ⟨[1, 2, 3, 4, 5], 0⟩ (by decide) rfl

/-- C3: whenever the transport accepts K > 0 bytes of the offered chunk
(possibly fewer than offered), send_next_chunk advances the cursor by
exactly K and returns K, leaving the payload untouched, so the next call
offers bytes starting at the old cursor + K. -/
theorem positive_accept_advances_cursor (C : Nat) (send : List Nat → SendOutcome)
    (s : ArraySender) (K : Nat) (hK : 0 < K)
    (hKle : K ≤ min s.num_bytes_remaining C)
    (hsend : send (s.mkChunk C) = SendOutcome.ret K) :
    s.send_next_chunk C send
      = (ChunkResult.sent K, { s with curr_loc := s.curr_loc + K }) := by
  have hrem : 0 < min s.num_bytes_remaining C := lt_of_lt_of_le hK hKle
  unfold ArraySender.send_next_chunk
  rw [if_pos hrem, hsend]
  simp [hK]

/-- Witness for C3: the transport accepts 1 of the 2 offered bytes and
the cursor moves from 0 to exactly 1. -/
theorem positive_accept_advances_cursor_witness :
    (0 : Nat) < 1
    ∧ 1 ≤ min (ArraySender.num_bytes_remaining ⟨[10, 20, 30], 0⟩) 2
    ∧ ArraySender.send_next_chunk 2 (fun _ => SendOutcome.ret 1) ⟨[10, 20, 30], 0⟩
        = (ChunkResult.sent 1, ⟨[10, 20, 30], 1⟩) :=
  ⟨by decide, by decide,
   positive_accept_advances_cursor 2 (fun _ => SendOutcome.ret 1)
     ⟨[10, 20, 30], 0⟩ 1 (by decide) (by decide) rfl⟩

/-- C6: for an exhausted sender (cursor = length), every call of
send_next_chunk — whatever the transport would answer, hence without the
transport ever being written to — returns the 0-byte complete result and
leaves the state exactly as it was, and so does any repeated call after
it. -/
theorem exhausted_send_idempotent (C : Nat) (send : List Nat → SendOutcome)
    (s : ArraySender) (h : s.curr_loc = s.array.length) :
    s.send_next_chunk C send = (ChunkResult.sent 0, s)
    ∧ ∀ send2 : List Nat → SendOutcome,
        ((s.send_next_chunk C send).2).send_next_chunk C send2
          = (ChunkResult.sent 0, s) := by
  have hz : ¬ 0 < min s.num_bytes_remaining C := by
    unfold ArraySender.num_bytes_remaining
    omega
  have h1 := ArraySender.send_next_chunk_done C send s hz
  refine ⟨h1, fun send2 => ?_⟩
  rw [h1]
  exact ArraySender.send_next_chunk_done C send2 s hz

/-- Witness for C6 at a concrete exhausted sender. -/
theorem exhausted_send_idempotent_witness :
    (ArraySender.curr_loc ⟨[1, 2, 3], 3⟩ = (ArraySender.array ⟨[1, 2, 3], 3⟩).length)
    ∧ ArraySender.send_next_chunk 4096 (fun _ => SendOutcome.ret 99) ⟨[1, 2, 3], 3⟩
        = (ChunkResult.sent 0, ⟨[1, 2, 3], 3⟩) :=
  ⟨by decide,
   (exhausted_send_idempotent 4096 (fun _ => SendOutcome.ret 99)
     ⟨[1, 2, 3], 3⟩ (by decide)).1⟩

/-- Case analysis on the state send_next_chunk leaves behind: either the
sender is unchanged, or the transport accepted some n > 0 bytes and
curr_loc advanced by exactly n. -/
lemma ArraySender.send_next_chunk_state_cases (C : Nat)
    (send : List Nat → SendOutcome) (s : ArraySender) :
    (s.send_next_chunk C send).2 = s
    ∨ ∃ n, send (s.mkChunk C) = SendOutcome.ret n ∧ 0 < n ∧
        (s.send_next_chunk C send).2 = { s with curr_loc := s.curr_loc + n } := by
  unfold ArraySender.send_next_chunk
  by_cases hb : 0 < min s.num_bytes_remaining C
  · rw [if_pos hb]
    cases hout : send (s.mkChunk C) with
    | ret n =>
      by_cases hn : 0 < n
      · exact Or.inr ⟨n, rfl, hn, by simp [hn]⟩
      · exact Or.inl (by simp [hn])
    | err again => exact Or.inl (by cases again <;> rfl)
  · rw [if_neg hb]
    exact Or.inl rfl

/-- C7: the constructor establishes cursor = 0 (hence 0 ≤ cursor ≤
length); under the invariant cursor ≤ length, and with a transport that
never claims to have accepted more bytes than the chunk it was offered,
send_next_chunk keeps the cursor non-decreasing and within bounds and
never touches the payload; and the sender is exhausted (no bytes
remaining, the test the code performs) exactly when cursor = length. -/
theorem cursor_invariant (data : List Nat) (len C : Nat)
    (send : List Nat → SendOutcome) (s : ArraySender)
    (hinv : s.curr_loc ≤ s.array.length)
    (hsend : ∀ K, send (s.mkChunk C) = SendOutcome.ret K → K ≤ (s.mkChunk C).length) :
    (ArraySender.make data len).curr_loc = 0
    ∧ (ArraySender.make data len).curr_loc ≤ (ArraySender.make data len).array.length
    ∧ s.curr_loc ≤ (s.send_next_chunk C send).2.curr_loc
    ∧ (s.send_next_chunk C send).2.curr_loc ≤ (s.send_next_chunk C send).2.array.length
    ∧ (s.send_next_chunk C send).2.array = s.array
    ∧ (s.exhausted ↔ s.curr_loc = s.array.length) := by
  have hiff : s.exhausted ↔ s.curr_loc = s.array.length := by
    unfold ArraySender.exhausted ArraySender.num_bytes_remaining
    omega
  rcases ArraySender.send_next_chunk_state_cases C send s with h | ⟨n, hout, hn, h⟩
  · rw [h]
    exact ⟨rfl, Nat.zero_le _, le_refl _, hinv, rfl, hiff⟩
  · have hKb := hsend n hout
    rw [ArraySender.mkChunk_length] at hKb
    unfold ArraySender.num_bytes_remaining at hKb
    rw [h]
    refine ⟨rfl, Nat.zero_le _, by simp, by simp; omega, rfl, hiff⟩

/-- Witness for C7: a sender mid-payload, a transport accepting one
byte; the cursor goes from 1 to 2 and stays within the 3-byte payload. -/
theorem cursor_invariant_witness :
    (ArraySender.make [7, 8] 2).curr_loc = 0
    ∧ (ArraySender.make [7, 8] 2).curr_loc ≤ (ArraySender.make [7, 8] 2).array.length
    ∧ (ArraySender.curr_loc ⟨[10, 20, 30], 1⟩)
        ≤ (ArraySender.send_next_chunk 2 (fun _ => SendOutcome.ret 1)
            ⟨[10, 20, 30], 1⟩).2.curr_loc
    ∧ (ArraySender.send_next_chunk 2 (fun _ => SendOutcome.ret 1)
        ⟨[10, 20, 30], 1⟩).2.curr_loc
        ≤ (ArraySender.send_next_chunk 2 (fun _ => SendOutcome.ret 1)
            ⟨[10, 20, 30], 1⟩).2.array.length
    ∧ (ArraySender.send_next_chunk 2 (fun _ => SendOutcome.ret 1)
        ⟨[10, 20, 30], 1⟩).2.array = ArraySender.array ⟨[10, 20, 30], 1⟩
    ∧ (ArraySender.exhausted ⟨[10, 20, 30], 1⟩
        ↔ ArraySender.curr_loc ⟨[10, 20, 30], 1⟩
            = (ArraySender.array ⟨[10, 20, 30], 1⟩).length) :=
  cursor_invariant [7, 8] 2 2 (fun _ => SendOutcome.ret 1) ⟨[10, 20, 30], 1⟩
    (by decide)
    (by intro K hK; injection hK with h; rw [← h]; decide)

/-- C10: the chunk copied out of the payload holds exactly
min(length - cursor, C) bytes — at most C, so the memcpy into the local
CHUNK_SIZE buffer fits — and under the invariant cursor ≤ length every
payload index it reads, cursor + i for i below that count, is strictly
inside the payload; byte i of the chunk is exactly payload byte
cursor + i. -/
theorem chunk_bounds_safe (C : Nat) (s : ArraySender)
    (hinv : s.curr_loc ≤ s.array.length) :
    (s.mkChunk C).length = min (s.array.length - s.curr_loc) C
    ∧ (s.mkChunk C).length ≤ C
    ∧ (∀ i, i < min (s.array.length - s.curr_loc) C → s.curr_loc + i < s.array.length)
    ∧ ∀ i, i < (s.mkChunk C).length →
        (s.mkChunk C).getD i 0 = s.array.getD (s.curr_loc + i) 0 := by
  have hlen := ArraySender.mkChunk_length C s
  unfold ArraySender.num_bytes_remaining at hlen
  refine ⟨hlen, by rw [hlen]; omega, fun i hi => by omega, fun i hi => ?_⟩
  rw [hlen] at hi
  unfold ArraySender.mkChunk ArraySender.num_bytes_remaining
  rw [List.getD_eq_getElem?_getD, List.getD_eq_getElem?_getD,
    List.getElem?_take_of_lt hi, List.getElem?_drop]

/-- Witness for C10: cursor 3 in a 5-byte payload with chunk limit 2:
the chunk is 2 bytes long, both reads are in bounds, and the chunk bytes
equal payload bytes 3 and 4. -/
theorem chunk_bounds_safe_witness :
    (ArraySender.mkChunk 2 ⟨[1, 2, 3, 4, 5], 3⟩).length = min (5 - 3) 2
    ∧ (ArraySender.mkChunk 2 ⟨[1, 2, 3, 4, 5], 3⟩).length ≤ 2
    ∧ (∀ i, i < min (5 - 3) 2 → 3 + i < 5)
    ∧ ∀ i, i < (ArraySender.mkChunk 2 ⟨[1, 2, 3, 4, 5], 3⟩).length →
        (ArraySender.mkChunk 2 ⟨[1, 2, 3, 4, 5], 3⟩).getD i 0
          = (ArraySender.array ⟨[1, 2, 3, 4, 5], 3⟩).getD (3 + i) 0 :=
  chunk_bounds_safe 2 ⟨[1, 2, 3, 4, 5], 3⟩ (by decide)

/-- Ceiling-division step: peeling one chunk of min(R, C) bytes off a
positive remainder R accounts for exactly one of the ceil(R/C) chunks. -/
lemma ceil_chunk_step (R C : Nat) (hR : 0 < R) (hC : 0 < C) :
    (R - min R C + C - 1) / C + 1 = (R + C - 1) / C := by
  rcases le_or_lt R C with h | h
  · have h1 : R - min R C + C - 1 = C - 1 := by omega
    rw [h1, Nat.div_eq_of_lt (by omega)]
    have h2 : (R + C - 1) / C = 1 := by
      apply Nat.div_eq_of_lt_le <;> omega
    omega
  · have h1 : R - min R C + C - 1 = R - 1 := by omega
    rw [h1]
    have h2 : (R - 1) / C + 1 = (R - 1 + C) / C := (Nat.add_div_right _ hC).symm
    have h3 : R - 1 + C = R + C - 1 := by omega
    rw [h2, h3]

/-- Running send_next_chunk to exhaustion against the all-accepting
transport produces ceil(remaining / C) chunks, all positive, summing to
the number of bytes that were remaining. -/
lemma runFullAccept_spec (C : Nat) (hC : 0 < C) :
    ∀ (fuel : Nat) (s : ArraySender), s.curr_loc ≤ s.array.length →
      s.num_bytes_remaining ≤ fuel →
      (runFullAccept C fuel s).length = (s.num_bytes_remaining + C - 1) / C
      ∧ (runFullAccept C fuel s).sum = s.num_bytes_remaining
      ∧ ∀ n ∈ runFullAccept C fuel s, 0 < n := by
  intro fuel
  induction fuel with
  | zero =>
    intro s h1 h2
    have h0 : s.num_bytes_remaining = 0 := by omega
    rw [h0]
    refine ⟨?_, rfl, fun n hn => absurd hn (List.not_mem_nil n)⟩
    simp only [runFullAccept, List.length_nil]
    rw [Nat.div_eq_of_lt (by omega)]
  | succ fuel ih =>
    intro s h1 h2
    by_cases hrem : 0 < s.num_bytes_remaining
    · have hb : 0 < min s.num_bytes_remaining C := by omega
      have hstep := ArraySender.send_next_chunk_fullAccept C s hb
      have hbR : min s.num_bytes_remaining C ≤ s.num_bytes_remaining := min_le_left _ _
      unfold ArraySender.num_bytes_remaining at hbR
      simp only [runFullAccept, hstep, if_pos hb]
      have h1n : ({ s with curr_loc := s.curr_loc + min s.num_bytes_remaining C }
          : ArraySender).curr_loc
          ≤ ({ s with curr_loc := s.curr_loc + min s.num_bytes_remaining C }
          : ArraySender).array.length := by
        simp only []
        unfold ArraySender.num_bytes_remaining at hb ⊢
        omega
      have h2n : ({ s with curr_loc := s.curr_loc + min s.num_bytes_remaining C }
          : ArraySender).num_bytes_remaining ≤ fuel := by
        unfold ArraySender.num_bytes_remaining at hb h2 ⊢
        simp only []
        omega
      obtain ⟨ihl, ihs, ihp⟩ := ih _ h1n h2n
      have hremn : ({ s with curr_loc := s.curr_loc + min s.num_bytes_remaining C }
          : ArraySender).num_bytes_remaining
          = s.num_bytes_remaining - min s.num_bytes_remaining C := by
        unfold ArraySender.num_bytes_remaining
        simp only []
        omega
      rw [hremn] at ihl ihs
      refine ⟨?_, ?_, ?_⟩
      · rw [List.length_cons, ihl]
        exact ceil_chunk_step s.num_bytes_remaining C hrem hC
      · rw [List.sum_cons, ihs]
        unfold ArraySender.num_bytes_remaining at hrem ⊢
        omega
      · intro n hn
        rcases List.mem_cons.mp hn with h | h
        · omega
        · exact ihp n h
    · have hb : ¬ 0 < min s.num_bytes_remaining C := by omega
      have hstep := ArraySender.send_next_chunk_done C
        (fun chunk => SendOutcome.ret chunk.length) s hb
      simp only [runFullAccept, hstep, Nat.lt_irrefl, if_false]
      have h0 : s.num_bytes_remaining = 0 := by omega
      rw [h0]
      refine ⟨?_, rfl, fun n hn => absurd hn (List.not_mem_nil n)⟩
      simp only [List.length_nil]
      rw [Nat.div_eq_of_lt (by omega)]

/-- C5: each call offers exactly min(remaining, C) bytes; over a payload
of P bytes, if the transport accepts every offered byte, the transmitter
emits exactly ceil(P/C) chunks, each non-empty, and the accepted-byte
counts returned across the calls sum to exactly P. -/
theorem full_accept_chunk_count_and_sum (data : List Nat) (C fuel : Nat)
    (hC : 0 < C) (hfuel : data.length ≤ fuel) :
    (∀ s : ArraySender, (s.mkChunk C).length = min s.num_bytes_remaining C)
    ∧ (runFullAccept C fuel (ArraySender.make data data.length)).length
        = (data.length + C - 1) / C
    ∧ (runFullAccept C fuel (ArraySender.make data data.length)).sum = data.length
    ∧ ∀ n ∈ runFullAccept C fuel (ArraySender.make data data.length), 0 < n := by
  have harr : (ArraySender.make data data.length).array = data := by
    unfold ArraySender.make
    exact List.take_length data
  have hrem : (ArraySender.make data data.length).num_bytes_remaining = data.length := by
    unfold ArraySender.num_bytes_remaining
    rw [harr]
    rfl
  have hcur : (ArraySender.make data data.length).curr_loc
      ≤ (ArraySender.make data data.length).array.length := Nat.zero_le _
  obtain ⟨hl, hs, hp⟩ := runFullAccept_spec C hC fuel (ArraySender.make data data.length)
    hcur (by rw [hrem]; exact hfuel)
  rw [hrem] at hl hs
  exact ⟨fun s => ArraySender.mkChunk_length C s, hl, hs, hp⟩

/-- Witness for C5: the 10-byte payload with chunk limit 4 yields
ceil(10/4) = 3 chunks summing to 10. -/
theorem full_accept_chunk_count_and_sum_witness :
    (runFullAccept 4 10 (ArraySender.make [0, 1, 2, 3, 4, 5, 6, 7, 8, 9]
        (List.length [0, 1, 2, 3, 4, 5, 6, 7, 8, 9]))).length = (10 + 4 - 1) / 4
    ∧ (runFullAccept 4 10 (ArraySender.make [0, 1, 2, 3, 4, 5, 6, 7, 8, 9]
        (List.length [0, 1, 2, 3, 4, 5, 6, 7, 8, 9]))).sum = 10 :=
  ⟨(full_accept_chunk_count_and_sum [0, 1, 2, 3, 4, 5, 6, 7, 8, 9] 4 10
      (by decide) (by decide)).2.1,
   (full_accept_chunk_count_and_sum [0, 1, 2, 3, 4, 5, 6, 7, 8, 9] 4 10
      (by decide) (by decide)).2.2.1⟩

/-- Looking up a key after erasing it always misses. -/
lemma Table.lookupFd_eraseFd_self (t : Table) (fd : Nat) :
    Table.lookupFd (Table.eraseFd t fd) fd = none := by
  induction t with
  | nil => rfl
  | cons p rest ih =>
    obtain ⟨k, c⟩ := p
    unfold Table.eraseFd
    by_cases hk : k = fd
    · rw [if_pos hk]
      exact ih
    · rw [if_neg hk]
      unfold Table.lookupFd
      rw [if_neg hk]
      exact ih

/-- Erasing a key that is not in the table leaves it unchanged. -/
lemma Table.eraseFd_of_lookup_none (t : Table) (fd : Nat)
    (h : Table.lookupFd t fd = none) : Table.eraseFd t fd = t := by
  induction t with
  | nil => rfl
  | cons p rest ih =>
    obtain ⟨k, c⟩ := p
    unfold Table.lookupFd at h
    unfold Table.eraseFd
    by_cases hk : k = fd
    · rw [if_pos hk] at h
      exact absurd h (Option.some_ne_none c)
    · rw [if_neg hk] at h
      rw [if_neg hk, ih h]

/-- C4 (evaluating the code at the failing input): a readiness event
that carries only the write-ready indication leaves the connection
table — and with it every client, its mode and its in-progress
transmitter — completely unchanged: the event loop's EPOLLOUT branch is
an empty TODO stub (jukebox-server.cpp lines 337-347), so no drain
happens and no interest changes, whatever onServerIn and onClientIn do
and whatever state the table is in. -/
theorem epollout_branch_is_noop (onServerIn : Table → Table)
    (onClientIn : Table → Nat → Table) (serverFd : Nat) (t : Table) (fd : Nat) :
    processEvent onServerIn onClientIn serverFd t ⟨fd, false, false, true⟩ = t := rfl

/-- C8: whenever an event carries the hangup indication, the event loop
handles it first — the whole iteration equals the hangup branch alone,
whatever the read/write bits of the same event say, whatever the
input-handling collaborators do, and whatever mode the client is in —
and afterwards the handle is absent from the connection table, so no
further chunks can be attempted for it. -/
theorem hangup_priority_close (onServerIn : Table → Table)
    (onClientIn : Table → Nat → Table) (serverFd : Nat) (t : Table)
    (ev : EpollEvent) (hr : ev.rdhup = true) :
    processEvent onServerIn onClientIn serverFd t ev = Table.closeBranch t ev.fd
    ∧ Table.lookupFd (processEvent onServerIn onClientIn serverFd t ev) ev.fd = none := by
  have h : processEvent onServerIn onClientIn serverFd t ev
      = Table.closeBranch t ev.fd := by
    unfold processEvent
    rw [hr]
    simp only [if_true, ite_self]
  refine ⟨h, ?_⟩
  rw [h]
  unfold Table.closeBranch
  exact Table.lookupFd_eraseFd_self _ ev.fd

/-- Witness for C8: a single event carrying hangup, read and write bits
at once, for a client mid-SEND; the iteration is exactly the close and
the handle is gone from the table. -/
theorem hangup_priority_close_witness :
    processEvent (fun t => t) (fun t _ => t) 3
        [(7, ⟨7, Mode.SENDING, some ⟨[1, 2, 3], 1⟩⟩)] ⟨7, true, true, true⟩
      = Table.closeBranch [(7, ⟨7, Mode.SENDING, some ⟨[1, 2, 3], 1⟩⟩)] 7
    ∧ Table.lookupFd (processEvent (fun t => t) (fun t _ => t) 3
        [(7, ⟨7, Mode.SENDING, some ⟨[1, 2, 3], 1⟩⟩)] ⟨7, true, true, true⟩) 7
      = none :=
  hangup_priority_close (fun t => t) (fun t _ => t) 3
    [(7, ⟨7, Mode.SENDING, some ⟨[1, 2, 3], 1⟩⟩)] ⟨7, true, true, true⟩ rfl

/-- C9: the close sequence of the hangup branch, run on a handle that is
absent from the connection table, is a no-op on the table: the entry
that operator[] default-inserts is erased again immediately, so the
table afterwards equals the table before and no entry for that handle
remains. -/
theorem close_absent_noop (t : Table) (fd : Nat)
    (h : Table.lookupFd t fd = none) : Table.closeBranch t fd = t := by
  unfold Table.closeBranch
  rw [h]
  simp only [Option.isSome_none, Bool.false_eq_true, if_false]
  unfold Table.eraseFd
  rw [if_pos rfl]
  exact Table.eraseFd_of_lookup_none t fd h

/-- Witness for C9: closing the unregistered handle 9 leaves a table
holding only handle 3 exactly as it was. -/
theorem close_absent_noop_witness :
    Table.lookupFd [(3, ⟨3, Mode.RECEIVING, none⟩)] 9 = none
    ∧ Table.closeBranch [(3, ⟨3, Mode.RECEIVING, none⟩)] 9
        = [(3, ⟨3, Mode.RECEIVING, none⟩)] :=
  ⟨by decide, close_absent_noop [(3, ⟨3, Mode.RECEIVING, none⟩)] 9 (by decide)⟩
